import Mathlib

/-!
Verification of `capa/features/extractors/viv/indirect_calls.py`: a backward
register-definition resolver over a vivisect workspace.  The Python module is
embedded shallowly: the workspace is a record of the three queries the code
makes (`getPrevLocation`, `getXrefsTo` restricted to code references, and
`parseOpcode`), operands are a closed tagged union mirroring the envi operand
classes the code dispatches on with `isinstance`, and the unbounded `while q`
loop is given an explicit fuel argument together with a proof that a fuel
value computed from any finite closed address universe is sufficient.
-/

/-- Operand model: the envi operand classes distinguished by the module.
`reg` is `i386RegOper` (and its subclasses such as `Amd64RegOper`), `imm` is
`i386ImmOper` (whose `getOperValue` returns the stored immediate), `immMem`
is `i386ImmMemOper` (whose `getOperAddr` returns the stored address), and
`ripRel` is `Amd64RipRelOper` (whose `getOperAddr insn` returns
`insn.va + insn.size + displacement`).  Every other envi operand class
collapses to `other`. -/
inductive Oper where
  | reg (r : Nat)
  | imm (v : Nat)
  | immMem (a : Nat)
  | ripRel (d : Nat)
  | other
deriving DecidableEq, Repr

/-- A decoded instruction: address, byte size, mnemonic, ordered operands. -/
structure Insn where
  va : Nat
  size : Nat
  mnem : String
  opers : List Oper
deriving DecidableEq, Repr

/-- A vivisect location tuple `(L_VA, L_SIZE, L_LTYPE, L_TINFO)`. -/
structure Location where
  lva : Nat
  lsize : Nat
  ltype : Nat
  tinfo : Nat
deriving DecidableEq, Repr

/-- A vivisect xref tuple `(XR_FROM, XR_TO, XR_RTYPE, XR_RFLAG)`. -/
structure Xref where
  xrFrom : Nat
  xrTo : Nat
  rtype : Nat
  rflag : Nat
deriving DecidableEq, Repr

/-- The slice of a `vivisect.Workspace` consumed by the module:
`getPrevLocation va` is the adjacent previous location (if any),
`getXrefsTo va` is the list of xrefs to `va` already filtered to `REF_CODE`
(the only way the module queries it), and `parseOpcode va` decodes the
instruction at `va`. -/
structure Workspace where
  getPrevLocation : Nat → Option Location
  getXrefsTo : Nat → List Xref
  parseOpcode : Nat → Insn

/-- `vivisect.const.LOC_OP`. -/
def LOC_OP : Nat := 5

/-- `envi.IF_NOFALL`. -/
def IF_NOFALL : Nat := 1

/-- `envi.BR_PROC | envi.BR_DEREF | envi.BR_ARCH` = `0x01 | 0x04 | 0x20`. -/
def FAR_BRANCH_MASK : Nat := 37

/-- `DESTRUCTIVE_MNEMONICS = ('mov', 'lea', 'pop', 'xor')`. -/
def DESTRUCTIVE_MNEMONICS : List String := ["mov", "lea", "pop", "xor"]

/-- `get_previous_instructions(vw, va)`: the immediate prior adjacent
location is included when it is a decoded instruction (`LOC_OP`) that falls
through (its `IF_NOFALL` bit is clear); then the source of every code xref
to `va` is appended unless the xref carries a far-branch flag. -/
def get_previous_instructions (vw : Workspace) (va : Nat) : List Nat :=
  (match vw.getPrevLocation va with
   | none => []
   | some loc =>
     if loc.ltype = LOC_OP ∧ loc.tinfo &&& IF_NOFALL = 0 then [loc.lva] else []) ++
  (vw.getXrefsTo va).filterMap
    (fun x => if x.rflag &&& FAR_BRANCH_MASK ≠ 0 then none else some x.xrFrom)

/-- Outcome of the search (and of the resolver).  `found` is the returned
`(va, value?)` pair with `none` standing for the Python `None` (unknown
value); `notFoundError` is the raised `NotFoundError`; `indexError` is a
Python `IndexError` from an out-of-range operand subscript;
`attributeError` is a Python `AttributeError` (`.reg` on a non-register
operand); `assertionError` is a failed `assert`; `outOfFuel` only marks an
underfunded model loop and is proved unreachable for sufficient fuel. -/
inductive SearchResult where
  | found (va : Nat) (value : Option Nat)
  | notFoundError
  | indexError
  | attributeError
  | assertionError
  | outOfFuel
deriving DecidableEq, Repr

/-- The test on lines 98-101 of the source: the first operand is an
`i386RegOper` whose register is the target, and the mnemonic is in
`DESTRUCTIVE_MNEMONICS`.  (Python short-circuits, so `.reg` is only read
after the `isinstance` check succeeds.) -/
def definesReg (opnd0 : Oper) (mnem : String) (reg : Nat) : Bool :=
  match opnd0 with
  | Oper.reg r => r == reg && decide (mnem ∈ DESTRUCTIVE_MNEMONICS)
  | _ => false

/-- An instruction is a destructive write to `reg` when it has a first
operand and that operand passes `definesReg`.  (An instruction with no
operands never qualifies: the source checks `len(insn.opers) == 0` first.) -/
def isDestructiveWriteTo (insn : Insn) (reg : Nat) : Bool :=
  match insn.opers with
  | [] => false
  | opnd0 :: _ => definesReg opnd0 insn.mnem reg

/-- Lines 110-122 of the source: the value extracted once `cur` is known to
be destructive.  For a non-`mov` the value is unknown (`None`); for a `mov`
the second operand `insn.opers[1]` is dispatched by class, with a missing
second operand raising `IndexError` exactly as the Python subscript would. -/
def extractConstant (cur : Nat) (insn : Insn) : SearchResult :=
  if insn.mnem ≠ "mov" then
    SearchResult.found cur none
  else
    match insn.opers with
    | _ :: opnd1 :: _ =>
      match opnd1 with
      | Oper.imm v => SearchResult.found cur (some v)
      | Oper.immMem a => SearchResult.found cur (some a)
      | Oper.ripRel d => SearchResult.found cur (some (insn.va + insn.size + d))
      | _ => SearchResult.found cur none
    | _ => SearchResult.indexError

/-- The `while q` loop of `find_definition` (lines 83-124), with the deque
as a list (popleft = head, extend = append on the right), the `seen` set as
a `Finset`, and an explicit fuel counter standing in for the unbounded
iteration. -/
def findDefinitionLoop (vw : Workspace) (reg : Nat) :
    Nat → List Nat → Finset Nat → SearchResult
  | 0, _, _ => SearchResult.outOfFuel
  | _ + 1, [], _ => SearchResult.notFoundError
  | fuel + 1, cur :: q, seen =>
    if cur ∈ seen then
      findDefinitionLoop vw reg fuel q seen
    else
      match (vw.parseOpcode cur).opers with
      | [] =>
        findDefinitionLoop vw reg fuel (q ++ get_previous_instructions vw cur)
          (insert cur seen)
      | opnd0 :: _ =>
        if definesReg opnd0 (vw.parseOpcode cur).mnem reg then
          extractConstant cur (vw.parseOpcode cur)
        else
          findDefinitionLoop vw reg fuel (q ++ get_previous_instructions vw cur)
            (insert cur seen)

/-- The same loop, additionally returning the list of addresses that were
actually processed (decoded and inspected), in processing order.  Addresses
skipped because they were already in `seen` are not recorded. -/
def findDefinitionLoopTrace (vw : Workspace) (reg : Nat) :
    Nat → List Nat → Finset Nat → List Nat × SearchResult
  | 0, _, _ => ([], SearchResult.outOfFuel)
  | _ + 1, [], _ => ([], SearchResult.notFoundError)
  | fuel + 1, cur :: q, seen =>
    if cur ∈ seen then
      findDefinitionLoopTrace vw reg fuel q seen
    else
      match (vw.parseOpcode cur).opers with
      | [] =>
        let r := findDefinitionLoopTrace vw reg fuel
          (q ++ get_previous_instructions vw cur) (insert cur seen)
        (cur :: r.1, r.2)
      | opnd0 :: _ =>
        if definesReg opnd0 (vw.parseOpcode cur).mnem reg then
          ([cur], extractConstant cur (vw.parseOpcode cur))
        else
          let r := findDefinitionLoopTrace vw reg fuel
            (q ++ get_previous_instructions vw cur) (insert cur seen)
          (cur :: r.1, r.2)

/-- `find_definition(vw, va, reg)`: seed the queue with the predecessors of
`va`, start with an empty `seen` set, and run the loop. -/
def find_definition (vw : Workspace) (va reg fuel : Nat) : SearchResult :=
  findDefinitionLoop vw reg fuel (get_previous_instructions vw va) ∅

/-- `find_definition` instrumented with the list of processed addresses. -/
def find_definition_trace (vw : Workspace) (va reg fuel : Nat) :
    List Nat × SearchResult :=
  findDefinitionLoopTrace vw reg fuel (get_previous_instructions vw va) ∅

/-- Errors surfaced by `is_indirect_call`. -/
inductive PyErr where
  | indexError
deriving DecidableEq, Repr

/-- `is_indirect_call(vw, va, insn=None)`: decode when no instruction is
supplied, then test `insn.mnem == "call" and isinstance(insn.opers[0],
i386RegOper)`.  The `and` short-circuits, so `opers[0]` is subscripted (and
can raise `IndexError`) only when the mnemonic is `call`. -/
def is_indirect_call (vw : Workspace) (va : Nat) (insn? : Option Insn) :
    Except PyErr Bool :=
  let insn := match insn? with
    | none => vw.parseOpcode va
    | some i => i
  if insn.mnem = "call" then
    match insn.opers with
    | [] => Except.error PyErr.indexError
    | opnd0 :: _ =>
      Except.ok (match opnd0 with
        | Oper.reg _ => true
        | _ => false)
  else
    Except.ok false

/-- `resolve_indirect_call(vw, va, insn=None)`: decode when needed, `assert
is_indirect_call(...)`, then delegate to `find_definition` on the register
of the first operand. -/
def resolve_indirect_call (vw : Workspace) (va : Nat) (insn? : Option Insn)
    (fuel : Nat) : SearchResult :=
  let insn := match insn? with
    | none => vw.parseOpcode va
    | some i => i
  match is_indirect_call vw va (some insn) with
  | Except.error PyErr.indexError => SearchResult.indexError
  | Except.ok false => SearchResult.assertionError
  | Except.ok true =>
    match insn.opers with
    | Oper.reg r :: _ => find_definition vw va r fuel
    | _ => SearchResult.attributeError

/-! ### Single-step unfolding lemmas for the loop -/

theorem loop_seen (vw : Workspace) (reg fuel cur : Nat) (q : List Nat)
    (seen : Finset Nat) (h : cur ∈ seen) :
    findDefinitionLoop vw reg (fuel + 1) (cur :: q) seen =
      findDefinitionLoop vw reg fuel q seen := by
  simp [findDefinitionLoop, h]

theorem loop_skip (vw : Workspace) (reg fuel cur : Nat) (q : List Nat)
    (seen : Finset Nat) (hseen : cur ∉ seen)
    (hnd : isDestructiveWriteTo (vw.parseOpcode cur) reg = false) :
    findDefinitionLoop vw reg (fuel + 1) (cur :: q) seen =
      findDefinitionLoop vw reg fuel (q ++ get_previous_instructions vw cur)
        (insert cur seen) := by
  rw [findDefinitionLoop, if_neg hseen]
  unfold isDestructiveWriteTo at hnd
  rcases hop : (vw.parseOpcode cur).opers with _ | ⟨opnd0, rest⟩
  · rfl
  · rw [hop] at hnd
    have hnd' : definesReg opnd0 (vw.parseOpcode cur).mnem reg = false := hnd
    simp [hnd']

theorem loop_hit (vw : Workspace) (reg fuel cur : Nat) (q : List Nat)
    (seen : Finset Nat) (hseen : cur ∉ seen)
    (hd : isDestructiveWriteTo (vw.parseOpcode cur) reg = true) :
    findDefinitionLoop vw reg (fuel + 1) (cur :: q) seen =
      extractConstant cur (vw.parseOpcode cur) := by
  rw [findDefinitionLoop, if_neg hseen]
  unfold isDestructiveWriteTo at hd
  rcases hop : (vw.parseOpcode cur).opers with _ | ⟨opnd0, rest⟩
  · rw [hop] at hd; exact absurd hd (by simp)
  · rw [hop] at hd
    have hd' : definesReg opnd0 (vw.parseOpcode cur).mnem reg = true := hd
    simp [hd']

theorem trace_seen (vw : Workspace) (reg fuel cur : Nat) (q : List Nat)
    (seen : Finset Nat) (h : cur ∈ seen) :
    findDefinitionLoopTrace vw reg (fuel + 1) (cur :: q) seen =
      findDefinitionLoopTrace vw reg fuel q seen := by
  simp [findDefinitionLoopTrace, h]

theorem trace_skip (vw : Workspace) (reg fuel cur : Nat) (q : List Nat)
    (seen : Finset Nat) (hseen : cur ∉ seen)
    (hnd : isDestructiveWriteTo (vw.parseOpcode cur) reg = false) :
    findDefinitionLoopTrace vw reg (fuel + 1) (cur :: q) seen =
      (cur :: (findDefinitionLoopTrace vw reg fuel
          (q ++ get_previous_instructions vw cur) (insert cur seen)).1,
       (findDefinitionLoopTrace vw reg fuel
          (q ++ get_previous_instructions vw cur) (insert cur seen)).2) := by
  rw [findDefinitionLoopTrace, if_neg hseen]
  unfold isDestructiveWriteTo at hnd
  rcases hop : (vw.parseOpcode cur).opers with _ | ⟨opnd0, rest⟩
  · rfl
  · rw [hop] at hnd
    have hnd' : definesReg opnd0 (vw.parseOpcode cur).mnem reg = false := hnd
    simp [hnd']

theorem trace_hit (vw : Workspace) (reg fuel cur : Nat) (q : List Nat)
    (seen : Finset Nat) (hseen : cur ∉ seen)
    (hd : isDestructiveWriteTo (vw.parseOpcode cur) reg = true) :
    findDefinitionLoopTrace vw reg (fuel + 1) (cur :: q) seen =
      ([cur], extractConstant cur (vw.parseOpcode cur)) := by
  rw [findDefinitionLoopTrace, if_neg hseen]
  unfold isDestructiveWriteTo at hd
  rcases hop : (vw.parseOpcode cur).opers with _ | ⟨opnd0, rest⟩
  · rw [hop] at hd; exact absurd hd (by simp)
  · rw [hop] at hd
    have hd' : definesReg opnd0 (vw.parseOpcode cur).mnem reg = true := hd
    simp [hd']

/-- The instrumented loop computes the same result as the plain loop. -/
theorem trace_snd (vw : Workspace) (reg : Nat) : ∀ (fuel : Nat) (q : List Nat)
    (seen : Finset Nat),
    (findDefinitionLoopTrace vw reg fuel q seen).2 =
      findDefinitionLoop vw reg fuel q seen := by
  intro fuel
  induction fuel with
  | zero => intro q seen; rfl
  | succ n ih =>
    intro q seen
    cases q with
    | nil => rfl
    | cons cur q =>
      by_cases h : cur ∈ seen
      · rw [trace_seen vw reg n cur q seen h, loop_seen vw reg n cur q seen h]
        exact ih q seen
      · cases hd : isDestructiveWriteTo (vw.parseOpcode cur) reg with
        | true =>
          rw [trace_hit vw reg n cur q seen h hd, loop_hit vw reg n cur q seen h hd]
        | false =>
          rw [trace_skip vw reg n cur q seen h hd, loop_skip vw reg n cur q seen h hd]
          exact ih _ _

/-- Every processed address was fresh, and no address is processed twice:
the trace is duplicate-free and disjoint from the initial `seen` set. -/
theorem trace_nodup (vw : Workspace) (reg : Nat) : ∀ (fuel : Nat) (q : List Nat)
    (seen : Finset Nat),
    (findDefinitionLoopTrace vw reg fuel q seen).1.Nodup ∧
      ∀ a ∈ (findDefinitionLoopTrace vw reg fuel q seen).1, a ∉ seen := by
  intro fuel
  induction fuel with
  | zero => intro q seen; simp [findDefinitionLoopTrace]
  | succ n ih =>
    intro q seen
    cases q with
    | nil => simp [findDefinitionLoopTrace]
    | cons cur q =>
      by_cases h : cur ∈ seen
      · rw [trace_seen vw reg n cur q seen h]
        exact ih q seen
      · cases hd : isDestructiveWriteTo (vw.parseOpcode cur) reg with
        | true =>
          rw [trace_hit vw reg n cur q seen h hd]
          constructor
          · simp
          · intro a ha
            simp at ha
            simpa [ha] using h
        | false =>
          rw [trace_skip vw reg n cur q seen h hd]
          obtain ⟨hnd, hdisj⟩ := ih (q ++ get_previous_instructions vw cur) (insert cur seen)
          constructor
          · refine List.nodup_cons.mpr ⟨?_, hnd⟩
            intro hmem
            exact hdisj cur hmem (Finset.mem_insert_self cur seen)
          · intro a ha
            rcases List.mem_cons.mp ha with rfl | ha
            · exact h
            · intro hs
              exact hdisj a ha (Finset.mem_insert_of_mem hs)

/-- The extraction step always yields a `(cur, value)` pair, except that a
`mov` with fewer than two operands raises `IndexError`. -/
theorem extractConstant_cases (cur : Nat) (insn : Insn) :
    (∃ v, extractConstant cur insn = SearchResult.found cur v) ∨
      (insn.mnem = "mov" ∧ insn.opers.length < 2 ∧
        extractConstant cur insn = SearchResult.indexError) := by
  unfold extractConstant
  split
  · exact Or.inl ⟨none, rfl⟩
  · rename_i hm
    rcases hop : insn.opers with _ | ⟨o0, _ | ⟨opnd1, rest⟩⟩
    · exact Or.inr ⟨by simpa using hm, by simp [hop], rfl⟩
    · exact Or.inr ⟨by simpa using hm, by simp [hop], rfl⟩
    · left
      cases opnd1 <;> exact ⟨_, rfl⟩

theorem extractConstant_ne_outOfFuel (cur : Nat) (insn : Insn) :
    extractConstant cur insn ≠ SearchResult.outOfFuel := by
  rcases extractConstant_cases cur insn with ⟨v, hv⟩ | ⟨_, _, hv⟩ <;> simp [hv]

/-! ### Termination: a fuel budget computed from a finite closed universe -/

/-- A fuel budget sufficient to drain the worklist: one step per queued
address, plus one step per predecessor that each not-yet-visited address of
the universe `U` could ever enqueue, plus one final step to observe the
empty queue. -/
def searchFuel (vw : Workspace) (U : Finset Nat) (q : List Nat)
    (seen : Finset Nat) : Nat :=
  q.length + Finset.sum (U \ seen) (fun a => (get_previous_instructions vw a).length) + 1

/-- `U` is closed under the predecessor computation. -/
def PredClosed (vw : Workspace) (U : Finset Nat) : Prop :=
  ∀ a ∈ U, ∀ b ∈ get_previous_instructions vw a, b ∈ U

theorem searchFuel_pos (vw : Workspace) (U : Finset Nat) (q : List Nat)
    (seen : Finset Nat) : 0 < searchFuel vw U q seen := by
  unfold searchFuel; omega

theorem searchFuel_step (vw : Workspace) (U : Finset Nat) (cur : Nat)
    (q : List Nat) (seen : Finset Nat) (hU : cur ∈ U) (hseen : cur ∉ seen) :
    searchFuel vw U (q ++ get_previous_instructions vw cur) (insert cur seen) + 1 =
      searchFuel vw U (cur :: q) seen := by
  unfold searchFuel
  rw [List.length_append, List.length_cons, Finset.sdiff_insert]
  have hmem : cur ∈ U \ seen := Finset.mem_sdiff.mpr ⟨hU, hseen⟩
  have hsum : (get_previous_instructions vw cur).length +
      Finset.sum ((U \ seen).erase cur)
        (fun a => (get_previous_instructions vw a).length) =
      Finset.sum (U \ seen) (fun a => (get_previous_instructions vw a).length) :=
    Finset.add_sum_erase (U \ seen)
      (fun a => (get_previous_instructions vw a).length) hmem
  omega

/-- With fuel at least `searchFuel`, the loop never runs out of fuel, as
long as every queued address lies in a predecessor-closed universe `U`. -/
theorem loop_no_fuel_exhaustion (vw : Workspace) (reg : Nat) (U : Finset Nat)
    (hclosed : PredClosed vw U) :
    ∀ (fuel : Nat) (q : List Nat) (seen : Finset Nat),
    (∀ a ∈ q, a ∈ U) → searchFuel vw U q seen ≤ fuel →
    findDefinitionLoop vw reg fuel q seen ≠ SearchResult.outOfFuel := by
  intro fuel
  induction fuel with
  | zero =>
    intro q seen _ hfuel
    exact absurd hfuel (by have := searchFuel_pos vw U q seen; omega)
  | succ n ih =>
    intro q seen hq hfuel
    cases q with
    | nil => simp [findDefinitionLoop]
    | cons cur q =>
      have hcurU : cur ∈ U := hq cur (List.mem_cons_self cur q)
      by_cases h : cur ∈ seen
      · rw [loop_seen vw reg n cur q seen h]
        refine ih q seen (fun a ha => hq a (List.mem_cons_of_mem cur ha)) ?_
        unfold searchFuel at hfuel ⊢
        simp only [List.length_cons] at hfuel
        omega
      · cases hd : isDestructiveWriteTo (vw.parseOpcode cur) reg with
        | true =>
          rw [loop_hit vw reg n cur q seen h hd]
          exact extractConstant_ne_outOfFuel cur (vw.parseOpcode cur)
        | false =>
          rw [loop_skip vw reg n cur q seen h hd]
          refine ih (q ++ get_previous_instructions vw cur) (insert cur seen) ?_ ?_
          · intro a ha
            rcases List.mem_append.mp ha with ha | ha
            · exact hq a (List.mem_cons_of_mem cur ha)
            · exact hclosed cur hcurU a ha
          · have := searchFuel_step vw U cur q seen hcurU h
            omega

/-- If no address of the (predecessor-closed) universe is a destructive
write to `reg`, the funded loop drains the queue and reports not-found. -/
theorem loop_all_unqualified (vw : Workspace) (reg : Nat) (U : Finset Nat)
    (hclosed : PredClosed vw U)
    (hnone : ∀ a ∈ U, isDestructiveWriteTo (vw.parseOpcode a) reg = false) :
    ∀ (fuel : Nat) (q : List Nat) (seen : Finset Nat),
    (∀ a ∈ q, a ∈ U) → searchFuel vw U q seen ≤ fuel →
    findDefinitionLoop vw reg fuel q seen = SearchResult.notFoundError := by
  intro fuel
  induction fuel with
  | zero =>
    intro q seen _ hfuel
    exact absurd hfuel (by have := searchFuel_pos vw U q seen; omega)
  | succ n ih =>
    intro q seen hq hfuel
    cases q with
    | nil => rfl
    | cons cur q =>
      have hcurU : cur ∈ U := hq cur (List.mem_cons_self cur q)
      by_cases h : cur ∈ seen
      · rw [loop_seen vw reg n cur q seen h]
        refine ih q seen (fun a ha => hq a (List.mem_cons_of_mem cur ha)) ?_
        unfold searchFuel at hfuel ⊢
        simp only [List.length_cons] at hfuel
        omega
      · rw [loop_skip vw reg n cur q seen h (hnone cur hcurU)]
        refine ih (q ++ get_previous_instructions vw cur) (insert cur seen) ?_ ?_
        · intro a ha
          rcases List.mem_append.mp ha with ha | ha
          · exact hq a (List.mem_cons_of_mem cur ha)
          · exact hclosed cur hcurU a ha
        · have := searchFuel_step vw U cur q seen hcurU h
          omega

/-- Whatever the fuel, queue and seen set, a successful result can only come
from the extraction step applied at an address that passed the
destructive-write test. -/
theorem loop_found_inv (vw : Workspace) (reg : Nat) :
    ∀ (fuel : Nat) (q : List Nat) (seen : Finset Nat) (addr : Nat)
      (v : Option Nat),
    findDefinitionLoop vw reg fuel q seen = SearchResult.found addr v →
    isDestructiveWriteTo (vw.parseOpcode addr) reg = true ∧
      extractConstant addr (vw.parseOpcode addr) = SearchResult.found addr v := by
  intro fuel
  induction fuel with
  | zero => intro q seen addr v hfd; exact absurd hfd (by simp [findDefinitionLoop])
  | succ n ih =>
    intro q seen addr v hfd
    cases q with
    | nil => exact absurd hfd (by simp [findDefinitionLoop])
    | cons cur q =>
      by_cases h : cur ∈ seen
      · rw [loop_seen vw reg n cur q seen h] at hfd
        exact ih q seen addr v hfd
      · cases hd : isDestructiveWriteTo (vw.parseOpcode cur) reg with
        | true =>
          rw [loop_hit vw reg n cur q seen h hd] at hfd
          rcases extractConstant_cases cur (vw.parseOpcode cur) with ⟨w, hw⟩ | ⟨_, _, hw⟩
          · rw [hw] at hfd
            obtain ⟨rfl, rfl⟩ : cur = addr ∧ w = v := by
              injection hfd with h1 h2; exact ⟨h1, h2⟩
            exact ⟨hd, hw⟩
          · rw [hw] at hfd; exact absurd hfd (by simp)
        | false =>
          rw [loop_skip vw reg n cur q seen h hd] at hfd
          exact ih _ _ addr v hfd

/-- When the loop reports not-found, every processed address failed the
destructive-write test. -/
theorem trace_notFound_unqualified (vw : Workspace) (reg : Nat) :
    ∀ (fuel : Nat) (q : List Nat) (seen : Finset Nat),
    (findDefinitionLoopTrace vw reg fuel q seen).2 = SearchResult.notFoundError →
    ∀ a ∈ (findDefinitionLoopTrace vw reg fuel q seen).1,
      isDestructiveWriteTo (vw.parseOpcode a) reg = false := by
  intro fuel
  induction fuel with
  | zero => intro q seen _ a ha; simp [findDefinitionLoopTrace] at ha
  | succ n ih =>
    intro q seen hnf a ha
    cases q with
    | nil => simp [findDefinitionLoopTrace] at ha
    | cons cur q =>
      by_cases h : cur ∈ seen
      · rw [trace_seen vw reg n cur q seen h] at hnf ha
        exact ih q seen hnf a ha
      · cases hd : isDestructiveWriteTo (vw.parseOpcode cur) reg with
        | true =>
          rw [trace_hit vw reg n cur q seen h hd] at hnf
          rcases extractConstant_cases cur (vw.parseOpcode cur) with ⟨w, hw⟩ | ⟨_, _, hw⟩ <;>
            simp [hw] at hnf
        | false =>
          rw [trace_skip vw reg n cur q seen h hd] at hnf ha
          rcases List.mem_cons.mp ha with rfl | ha
          · exact hd
          · exact ih _ _ hnf a ha

/-! ### Characterisation helpers shared by the claim theorems -/

theorem isDestructiveWriteTo_iff (insn : Insn) (reg : Nat) :
    isDestructiveWriteTo insn reg = true ↔
      ∃ rest, insn.opers = Oper.reg reg :: rest ∧
        insn.mnem ∈ DESTRUCTIVE_MNEMONICS := by
  unfold isDestructiveWriteTo definesReg
  rcases hop : insn.opers with _ | ⟨opnd0, rest⟩
  · simp
  · cases opnd0 with
    | reg r =>
      simp only [Bool.and_eq_true, beq_iff_eq, decide_eq_true_eq]
      constructor
      · rintro ⟨rfl, hm⟩; exact ⟨rest, rfl, hm⟩
      · rintro ⟨rest', heq, hm⟩
        injection heq with h1 _
        injection h1 with h1
        exact ⟨h1, hm⟩
    | imm v => simp
    | immMem a => simp
    | ripRel d => simp
    | other => simp

theorem extractConstant_some (cur : Nat) (insn : Insn) (n : Nat)
    (h : extractConstant cur insn = SearchResult.found cur (some n)) :
    insn.mnem = "mov" ∧
      ∃ opnd0 opnd1 rest, insn.opers = opnd0 :: opnd1 :: rest ∧
        (opnd1 = Oper.imm n ∨ opnd1 = Oper.immMem n ∨
          ∃ d, opnd1 = Oper.ripRel d ∧ n = insn.va + insn.size + d) := by
  unfold extractConstant at h
  split at h
  · simp at h
  · rename_i hm
    have hm' : insn.mnem = "mov" := by simpa using hm
    refine ⟨hm', ?_⟩
    rcases hop : insn.opers with _ | ⟨o0, _ | ⟨o1, rest⟩⟩ <;> rw [hop] at h
    · simp at h
    · simp at h
    · refine ⟨o0, o1, rest, rfl, ?_⟩
      cases o1 with
      | reg r => simp at h
      | imm v => left; simp at h; rw [h]
      | immMem a => right; left; simp at h; rw [h]
      | ripRel d => right; right; exact ⟨d, rfl, by simp at h; omega⟩
      | other => simp at h

/-! ### Concrete workspaces used as witnesses and counterexamples -/

/-- A straight-line function: `100: call reg8` preceded by the adjacent
falling-through instruction `90: mov reg8, 0x1234`. -/
def vwMovImm : Workspace where
  getPrevLocation := fun va =>
    if va = 100 then some ⟨90, 10, LOC_OP, 0⟩ else none
  getXrefsTo := fun _ => []
  parseOpcode := fun va =>
    if va = 90 then ⟨90, 10, "mov", [Oper.reg 8, Oper.imm 4660]⟩
    else if va = 100 then ⟨100, 2, "call", [Oper.reg 8]⟩
    else ⟨va, 1, "nop", []⟩

/-- Two backward paths merging at the call site 100: the fallthrough
predecessor 90 runs `mov reg8, 1111` and a jump from 80 runs
`mov reg8, 2222`; both define the target register with different values. -/
def vwMerge : Workspace where
  getPrevLocation := fun va =>
    if va = 100 then some ⟨90, 10, LOC_OP, 0⟩ else none
  getXrefsTo := fun va =>
    if va = 100 then [⟨80, 100, 1, 0⟩] else []
  parseOpcode := fun va =>
    if va = 90 then ⟨90, 10, "mov", [Oper.reg 8, Oper.imm 1111]⟩
    else if va = 80 then ⟨80, 10, "mov", [Oper.reg 8, Oper.imm 2222]⟩
    else ⟨va, 1, "nop", []⟩

/-- A cyclic control-flow graph: 30 jumps to 100, and 10, 20, 30 form a
jump cycle (30 to 10 to 20 to 30); no instruction assigns the register. -/
def vwCyc : Workspace where
  getPrevLocation := fun _ => none
  getXrefsTo := fun va =>
    if va = 100 then [⟨30, 100, 1, 0⟩]
    else if va = 30 then [⟨20, 30, 1, 0⟩]
    else if va = 20 then [⟨10, 20, 1, 0⟩]
    else if va = 10 then [⟨30, 10, 1, 0⟩]
    else []
  parseOpcode := fun va => ⟨va, 1, "add", [Oper.reg 3, Oper.imm 1]⟩

/-- A call at function entry: no fallthrough predecessor, no code xrefs. -/
def vwEntry : Workspace where
  getPrevLocation := fun _ => none
  getXrefsTo := fun _ => []
  parseOpcode := fun va =>
    if va = 100 then ⟨100, 2, "call", [Oper.reg 8]⟩ else ⟨va, 1, "nop", []⟩

/-- A malformed destructive write: address 90 decodes to a `mov` carrying a
single operand, so the extraction subscript `insn.opers[1]` is out of
range. -/
def vwShortMov : Workspace where
  getPrevLocation := fun va =>
    if va = 100 then some ⟨90, 10, LOC_OP, 0⟩ else none
  getXrefsTo := fun _ => []
  parseOpcode := fun va =>
    if va = 90 then ⟨90, 10, "mov", [Oper.reg 8]⟩ else ⟨va, 1, "nop", []⟩

/-- The instruction at 95 both falls through to 100 and is recorded as a
code xref source to 100 (for example a conditional jump whose target is the
next instruction), so it is reported twice. -/
def vwDup : Workspace where
  getPrevLocation := fun va =>
    if va = 100 then some ⟨95, 5, LOC_OP, 0⟩ else none
  getXrefsTo := fun va =>
    if va = 100 then [⟨95, 100, 1, 2⟩] else []
  parseOpcode := fun va => ⟨va, 1, "nop", []⟩
/-- Membership characterisation of `get_previous_instructions`. -/
theorem mem_get_previous_instructions (vw : Workspace) (va a : Nat) :
    a ∈ get_previous_instructions vw va ↔
      ((∃ loc, vw.getPrevLocation va = some loc ∧ loc.ltype = LOC_OP ∧
          loc.tinfo &&& IF_NOFALL = 0 ∧ a = loc.lva) ∨
       (∃ x ∈ vw.getXrefsTo va, x.rflag &&& FAR_BRANCH_MASK = 0 ∧
          a = x.xrFrom)) := by
  unfold get_previous_instructions
  rw [List.mem_append, List.mem_filterMap]
  constructor
  · rintro (h | ⟨x, hx, hfx⟩)
    · left
      rcases hpl : vw.getPrevLocation va with _ | loc <;> rw [hpl] at h <;> dsimp only at h
      · simp at h
      · by_cases hc : loc.ltype = LOC_OP ∧ loc.tinfo &&& IF_NOFALL = 0
        · rw [if_pos hc] at h
          simp at h
          exact ⟨loc, rfl, hc.1, hc.2, h⟩
        · rw [if_neg hc] at h
          simp at h
    · right
      by_cases hf : x.rflag &&& FAR_BRANCH_MASK ≠ 0
      · rw [if_pos hf] at hfx
        simp at hfx
      · rw [if_neg hf] at hfx
        simp at hfx
        push_neg at hf
        exact ⟨x, hx, hf, hfx.symm⟩
  · rintro (⟨loc, hpl, h1, h2, rfl⟩ | ⟨x, hx, hf, rfl⟩)
    · left
      rw [hpl]
      dsimp only
      rw [if_pos ⟨h1, h2⟩]
      simp
    · right
      refine ⟨x, hx, ?_⟩
      rw [if_neg (by simp [hf])]

/-- C5: for every address, the predecessor computation includes the
memory-adjacent prior location exactly when that location is a decoded
instruction (`LOC_OP`, not data) whose fallthrough flag indicates it falls
through (`IF_NOFALL` clear); it includes the source of every code
cross-reference targeting the address whose flags carry no far-branch bit;
and it includes nothing else, so an address reached only via an edge
flagged as a far branch (`BR_PROC`, `BR_DEREF` or `BR_ARCH`) is never
included. -/
theorem get_previous_instructions_spec (vw : Workspace) (va a : Nat) :
    a ∈ get_previous_instructions vw va ↔
      ((∃ loc, vw.getPrevLocation va = some loc ∧ loc.ltype = LOC_OP ∧
          loc.tinfo &&& IF_NOFALL = 0 ∧ a = loc.lva) ∨
       (∃ x ∈ vw.getXrefsTo va, x.rflag &&& FAR_BRANCH_MASK = 0 ∧
          a = x.xrFrom)) :=
  mem_get_previous_instructions vw va a

/-- C5 witness: in `vwDup`, address 95 is a predecessor of 100 (both by
fallthrough and by a near-branch xref), obtained through the
characterisation theorem. -/
theorem get_previous_instructions_spec_witness :
    95 ∈ get_previous_instructions vwDup 100 :=
  (get_previous_instructions_spec vwDup 100 95).mpr
    (Or.inl ⟨⟨95, 5, LOC_OP, 0⟩, rfl, rfl, rfl, rfl⟩)

/-- C9 counterexample: the predecessor computation does not return a
duplicate-free collection.  In `vwDup` the instruction at 95 falls through
to 100 and also has a near code xref to 100, so it is returned twice. -/
theorem get_previous_instructions_duplicates_cex :
    get_previous_instructions vwDup 100 = [95, 95] ∧
      ¬ (get_previous_instructions vwDup 100).Nodup := by
  constructor
  · rfl
  · decide

/-- C9 (amended): the predecessor computation returns a list of addresses,
which may contain duplicates when the fallthrough predecessor is also a
near code-xref source; it returns the empty list, rather than an error, at
function entry or when no fallthrough or code-reference edge qualifies. -/
theorem get_previous_instructions_empty_iff (vw : Workspace) (va : Nat) :
    get_previous_instructions vw va = [] ↔
      ((∀ loc, vw.getPrevLocation va = some loc →
          ¬(loc.ltype = LOC_OP ∧ loc.tinfo &&& IF_NOFALL = 0)) ∧
       (∀ x ∈ vw.getXrefsTo va, x.rflag &&& FAR_BRANCH_MASK ≠ 0)) := by
  rw [List.eq_nil_iff_forall_not_mem]
  constructor
  · intro h
    constructor
    · rintro loc hpl ⟨h1, h2⟩
      exact h loc.lva ((mem_get_previous_instructions vw va loc.lva).mpr
        (Or.inl ⟨loc, hpl, h1, h2, rfl⟩))
    · intro x hx hf
      exact h x.xrFrom ((mem_get_previous_instructions vw va x.xrFrom).mpr
        (Or.inr ⟨x, hx, hf, rfl⟩))
  · rintro ⟨h1, h2⟩ a ha
    rcases (mem_get_previous_instructions vw va a).mp ha with
      ⟨loc, hpl, hl1, hl2, rfl⟩ | ⟨x, hx, hf, rfl⟩
    · exact h1 loc hpl ⟨hl1, hl2⟩
    · exact h2 x hx hf

/-- C9 witness: at function entry (`vwEntry`), the predecessor list is
empty, via the amended characterisation. -/
theorem get_previous_instructions_empty_iff_witness :
    get_previous_instructions vwEntry 100 = [] :=
  (get_previous_instructions_empty_iff vwEntry 100).mpr
    ⟨fun loc hpl => by simp [vwEntry] at hpl, fun x hx => by simp [vwEntry] at hx⟩

/-- C7: `is_indirect_call` answers true exactly for a `call` whose first
operand is a bare register, and answers false (not an error) for a call to
an immediate and for a call through a memory dereference. -/
theorem is_indirect_call_iff_register_call (vw : Workspace) (va : Nat)
    (insn : Insn) :
    (is_indirect_call vw va (some insn) = Except.ok true ↔
      insn.mnem = "call" ∧ ∃ r rest, insn.opers = Oper.reg r :: rest)
    ∧ (∀ v rest, insn.opers = Oper.imm v :: rest →
        is_indirect_call vw va (some insn) = Except.ok false)
    ∧ (∀ m rest, insn.opers = Oper.immMem m :: rest →
        is_indirect_call vw va (some insn) = Except.ok false) := by
  unfold is_indirect_call
  by_cases hm : insn.mnem = "call"
  · simp only [hm, if_pos]
    refine ⟨?_, ?_, ?_⟩
    · rcases hop : insn.opers with _ | ⟨opnd0, rest⟩
      · simp
      · cases opnd0 <;> simp
    · rintro v rest hop
      rw [hop]
    · rintro m rest hop
      rw [hop]
  · simp only [hm, if_neg, if_false]
    refine ⟨?_, ?_, ?_⟩
    · simp [hm]
    · intro _ _ _; trivial
    · intro _ _ _; trivial

/-- C7 witness: a `call reg8` instruction is classified as an indirect
call, via the characterisation theorem. -/
theorem is_indirect_call_iff_register_call_witness :
    is_indirect_call vwMovImm 100 (some ⟨100, 2, "call", [Oper.reg 8]⟩) =
      Except.ok true :=
  (is_indirect_call_iff_register_call vwMovImm 100
      ⟨100, 2, "call", [Oper.reg 8]⟩).1.mpr ⟨rfl, 8, [], rfl⟩

/-- C1: when the backward search dequeues a fresh address whose instruction
redefines the target register (first operand is that register, mnemonic in
the destructive set), the loop returns: `(cur, none)` if the mnemonic is
not `mov`; otherwise the second operand decides the value — an immediate
yields its literal value, a memory-immediate yields the referenced address
(not the memory contents), a RIP-relative operand yields the statically
computed absolute address `va + size + displacement`, and any other operand
shape yields the unknown value `none`. -/
theorem find_definition_destructive_value (vw : Workspace)
    (reg fuel cur : Nat) (q : List Nat) (seen : Finset Nat)
    (hseen : cur ∉ seen)
    (hd : isDestructiveWriteTo (vw.parseOpcode cur) reg = true) :
    ((vw.parseOpcode cur).mnem ≠ "mov" →
      findDefinitionLoop vw reg (fuel + 1) (cur :: q) seen =
        SearchResult.found cur none)
    ∧ (∀ opnd0 opnd1 rest, (vw.parseOpcode cur).mnem = "mov" →
        (vw.parseOpcode cur).opers = opnd0 :: opnd1 :: rest →
        ((∀ v, opnd1 = Oper.imm v →
            findDefinitionLoop vw reg (fuel + 1) (cur :: q) seen =
              SearchResult.found cur (some v))
         ∧ (∀ a, opnd1 = Oper.immMem a →
            findDefinitionLoop vw reg (fuel + 1) (cur :: q) seen =
              SearchResult.found cur (some a))
         ∧ (∀ d, opnd1 = Oper.ripRel d →
            findDefinitionLoop vw reg (fuel + 1) (cur :: q) seen =
              SearchResult.found cur
                (some ((vw.parseOpcode cur).va + (vw.parseOpcode cur).size + d)))
         ∧ ((∀ v, opnd1 ≠ Oper.imm v) → (∀ a, opnd1 ≠ Oper.immMem a) →
            (∀ d, opnd1 ≠ Oper.ripRel d) →
            findDefinitionLoop vw reg (fuel + 1) (cur :: q) seen =
              SearchResult.found cur none))) := by
  have hl := loop_hit vw reg fuel cur q seen hseen hd
  constructor
  · intro hm
    rw [hl]
    unfold extractConstant
    rw [if_pos hm]
  · intro opnd0 opnd1 rest hm hop
    have hm' : ¬((vw.parseOpcode cur).mnem ≠ "mov") := by simp [hm]
    refine ⟨?_, ?_, ?_, ?_⟩
    · rintro v rfl
      rw [hl]
      unfold extractConstant
      rw [if_neg hm', hop]
    · rintro a rfl
      rw [hl]
      unfold extractConstant
      rw [if_neg hm', hop]
    · rintro d rfl
      rw [hl]
      unfold extractConstant
      rw [if_neg hm', hop]
    · intro himm himem hrip
      rw [hl]
      unfold extractConstant
      rw [if_neg hm', hop]
      cases opnd1 with
      | reg r => rfl
      | imm v => exact absurd rfl (himm v)
      | immMem a => exact absurd rfl (himem a)
      | ripRel d => exact absurd rfl (hrip d)
      | other => rfl

/-- C1 witness: `mov reg8, 0x1234` directly before the call resolves to
that address with the literal value. -/
theorem find_definition_destructive_value_witness :
    findDefinitionLoop vwMovImm 8 1 [90] (∅ : Finset Nat) =
      SearchResult.found 90 (some 4660) :=
  ((find_definition_destructive_value vwMovImm 8 0 90 [] ∅ (by simp)
      (by decide)).2 (Oper.reg 8) (Oper.imm 4660) [] (by decide) rfl).1 4660 rfl

/-- C2: a freshly dequeued address terminates the search (is treated as a
definition boundary) exactly when its first operand is the target register
and its mnemonic is in the destructive set {mov, lea, pop, xor}; any other
instruction — including one with no operands — is skipped and its
predecessors are enqueued so the search continues further back.  The third
conjunct spells the boundary test out. -/
theorem find_definition_boundary_iff (vw : Workspace) (reg fuel cur : Nat)
    (q : List Nat) (seen : Finset Nat) (hseen : cur ∉ seen) :
    (isDestructiveWriteTo (vw.parseOpcode cur) reg = true →
      ((∃ v, findDefinitionLoop vw reg (fuel + 1) (cur :: q) seen =
          SearchResult.found cur v) ∨
        findDefinitionLoop vw reg (fuel + 1) (cur :: q) seen =
          SearchResult.indexError))
    ∧ (isDestructiveWriteTo (vw.parseOpcode cur) reg = false →
      findDefinitionLoop vw reg (fuel + 1) (cur :: q) seen =
        findDefinitionLoop vw reg fuel
          (q ++ get_previous_instructions vw cur) (insert cur seen))
    ∧ (∀ insn : Insn, isDestructiveWriteTo insn reg = true ↔
        ∃ rest, insn.opers = Oper.reg reg :: rest ∧
          insn.mnem ∈ DESTRUCTIVE_MNEMONICS) := by
  refine ⟨?_, ?_, fun insn => isDestructiveWriteTo_iff insn reg⟩
  · intro hd
    rw [loop_hit vw reg fuel cur q seen hseen hd]
    rcases extractConstant_cases cur (vw.parseOpcode cur) with ⟨v, hv⟩ | ⟨_, _, hv⟩
    · exact Or.inl ⟨v, hv⟩
    · exact Or.inr hv
  · intro hnd
    exact loop_skip vw reg fuel cur q seen hseen hnd

/-- C2 witness: in `vwCyc` the instruction at 30 is `add reg3, 1` — not in
the destructive set — so the search skips it and enqueues its
predecessors. -/
theorem find_definition_boundary_iff_witness :
    findDefinitionLoop vwCyc 3 1 [30] (∅ : Finset Nat) =
      findDefinitionLoop vwCyc 3 0 ([] ++ get_previous_instructions vwCyc 30)
        (insert 30 ∅) :=
  (find_definition_boundary_iff vwCyc 3 0 30 [] ∅ (by simp)).2.1 (by decide)

/-- C6: the first address reached in FIFO predecessor-enqueue order that
qualifies as a destructive write determines the single returned
`(address, value)` pair; whatever else is on the worklist (in particular
differing definitions on other merged paths) is never examined, compared or
reconciled, and no error is produced.  (The well-formedness hypothesis
records that a decoded `mov` carries both of its operands.) -/
theorem find_definition_first_qualifying_fifo (vw : Workspace)
    (reg cur : Nat)
    (hd : isDestructiveWriteTo (vw.parseOpcode cur) reg = true)
    (hwf : (vw.parseOpcode cur).mnem = "mov" →
      2 ≤ (vw.parseOpcode cur).opers.length) :
    ∃ v, ∀ (fuel : Nat) (q : List Nat) (seen : Finset Nat), cur ∉ seen →
      findDefinitionLoop vw reg (fuel + 1) (cur :: q) seen =
        SearchResult.found cur v := by
  rcases extractConstant_cases cur (vw.parseOpcode cur) with ⟨v, hv⟩ | ⟨hm, hlen, _⟩
  · exact ⟨v, fun fuel q seen hseen => by
      rw [loop_hit vw reg fuel cur q seen hseen hd, hv]⟩
  · exact absurd (hwf hm) (by omega)

/-- C6 witness: in `vwMerge`, paths through 90 (`mov reg8, 1111`) and 80
(`mov reg8, 2222`) merge at the call site; the FIFO order dequeues 90
first, and its definition is returned, without error and without consulting
the queued 80. -/
theorem find_definition_first_qualifying_fifo_witness :
    ∃ v, find_definition vwMerge 100 8 3 = SearchResult.found 90 v ∧
      v = some 1111 := by
  obtain ⟨v, hv⟩ := find_definition_first_qualifying_fifo vwMerge 8 90
    (by decide) (by decide)
  have h : findDefinitionLoop vwMerge 8 3 [90, 80] (∅ : Finset Nat) =
      SearchResult.found 90 v := hv 2 [80] ∅ (by simp)
  have hc : findDefinitionLoop vwMerge 8 3 [90, 80] (∅ : Finset Nat) =
      SearchResult.found 90 (some 1111) := by decide
  rw [h] at hc
  injection hc with _ hc2
  refine ⟨v, ?_, hc2⟩
  show findDefinitionLoop vwMerge 8 3 (get_previous_instructions vwMerge 100) ∅ =
    SearchResult.found 90 v
  have hp : get_previous_instructions vwMerge 100 = [90, 80] := by decide
  rw [hp]
  exact h

/-- C8 counterexample: constant extraction can raise.  In `vwShortMov` the
instruction at 90 is accepted as a destructive write (`mov` whose first
operand is the target register) but carries no second operand, so the
subscript `insn.opers[1]` raises `IndexError` instead of returning an
`(address, value)` pair. -/
theorem extraction_short_mov_raises_cex :
    isDestructiveWriteTo (vwShortMov.parseOpcode 90) 8 = true ∧
      find_definition vwShortMov 100 8 5 = SearchResult.indexError := by
  decide

/-- C8 (amended): for every instruction accepted as a destructive write
that, when its mnemonic is `mov`, carries a second operand, the extraction
step returns the definition address paired with a value (degrading to the
unknown value `none` on unrecognized second-operand shapes) rather than
raising. -/
theorem extraction_total_with_second_operand (cur : Nat) (insn : Insn)
    (reg : Nat) (hd : isDestructiveWriteTo insn reg = true)
    (hwf : insn.mnem = "mov" → 2 ≤ insn.opers.length) :
    ∃ v, extractConstant cur insn = SearchResult.found cur v := by
  rcases extractConstant_cases cur insn with ⟨v, hv⟩ | ⟨hm, hlen, _⟩
  · exact ⟨v, hv⟩
  · exact absurd (hwf hm) (by omega)

/-- C8 witness: a destructive `mov reg8` with an unrecognized second
operand shape still extracts a pair, with the unknown value. -/
theorem extraction_total_with_second_operand_witness :
    ∃ v, extractConstant 90 ⟨90, 2, "mov", [Oper.reg 8, Oper.other]⟩ =
      SearchResult.found 90 v :=
  extraction_total_with_second_operand 90 ⟨90, 2, "mov", [Oper.reg 8, Oper.other]⟩
    8 (by decide) (by decide)

/-- C3: on every control-flow graph — arbitrarily cyclic ones included —
the backward search terminates (it never exhausts a fuel budget computed
from a finite predecessor-closed universe containing the initial worklist),
and within a single call each address is decoded and inspected at most
once: the trace of processed addresses is duplicate-free. -/
theorem find_definition_terminates_and_visits_once (vw : Workspace)
    (va reg fuel : Nat) (U : Finset Nat) (hclosed : PredClosed vw U)
    (hstart : ∀ a ∈ get_previous_instructions vw va, a ∈ U)
    (hfuel : searchFuel vw U (get_previous_instructions vw va) ∅ ≤ fuel) :
    find_definition vw va reg fuel ≠ SearchResult.outOfFuel ∧
      (find_definition_trace vw va reg fuel).1.Nodup := by
  constructor
  · exact loop_no_fuel_exhaustion vw reg U hclosed fuel _ ∅ hstart hfuel
  · exact (trace_nodup vw reg fuel _ ∅).1

/-- C3 witness: the cyclic graph of `vwCyc` (30 to 10 to 20 to 30) is
handled: with the universe {30, 20, 10} the search terminates and no
address is processed twice. -/
theorem find_definition_terminates_and_visits_once_witness :
    find_definition vwCyc 100 3 5 ≠ SearchResult.outOfFuel ∧
      (find_definition_trace vwCyc 100 3 5).1.Nodup :=
  find_definition_terminates_and_visits_once vwCyc 100 3 5
    ({30, 20, 10} : Finset Nat)
    (by unfold PredClosed; decide) (by decide) (by decide)

/-- C4: the search reports `DefinitionNotFound` exactly when the worklist
is exhausted with no visited instruction qualifying as a destructive write:
(i) if no address of a predecessor-closed universe covering the search
qualifies, the funded search returns `notFoundError`; (ii) conversely, when
`notFoundError` is returned every processed address failed the
destructive-write test (and the trace agrees with the plain search); and
(iii) `resolve_indirect_call` propagates the outcome of `find_definition`
unchanged for a register-call instruction. -/
theorem find_definition_not_found_characterisation (vw : Workspace)
    (va reg fuel : Nat) :
    (∀ U : Finset Nat, PredClosed vw U →
      (∀ a ∈ get_previous_instructions vw va, a ∈ U) →
      searchFuel vw U (get_previous_instructions vw va) ∅ ≤ fuel →
      (∀ a ∈ U, isDestructiveWriteTo (vw.parseOpcode a) reg = false) →
      find_definition vw va reg fuel = SearchResult.notFoundError)
    ∧ ((find_definition_trace vw va reg fuel).2 = SearchResult.notFoundError →
        ∀ a ∈ (find_definition_trace vw va reg fuel).1,
          isDestructiveWriteTo (vw.parseOpcode a) reg = false)
    ∧ ((find_definition_trace vw va reg fuel).2 = find_definition vw va reg fuel)
    ∧ (∀ insn : Insn, insn.mnem = "call" →
        ∀ r rest, insn.opers = Oper.reg r :: rest →
        resolve_indirect_call vw va (some insn) fuel =
          find_definition vw va r fuel) := by
  refine ⟨?_, ?_, ?_, ?_⟩
  · intro U hclosed hstart hfuel hnone
    exact loop_all_unqualified vw reg U hclosed hnone fuel _ ∅ hstart hfuel
  · exact trace_notFound_unqualified vw reg fuel _ ∅
  · exact trace_snd vw reg fuel _ ∅
  · intro insn hm r rest hop
    unfold resolve_indirect_call is_indirect_call
    dsimp only
    rw [hop, if_pos hm]

/-- C4 witness: a register call at function entry (`vwEntry`, no backward
predecessors at all) fails with `DefinitionNotFound`, and the resolver
returns exactly that failure. -/
theorem find_definition_not_found_characterisation_witness :
    find_definition vwEntry 100 8 1 = SearchResult.notFoundError ∧
      resolve_indirect_call vwEntry 100 (some ⟨100, 2, "call", [Oper.reg 8]⟩) 1 =
        SearchResult.notFoundError := by
  have h := find_definition_not_found_characterisation vwEntry 100 8 1
  have h1 := h.1 (∅ : Finset Nat) (by unfold PredClosed; decide)
    (by decide) (by decide) (by decide)
  have h2 := h.2.2.2 ⟨100, 2, "call", [Oper.reg 8]⟩ rfl 8 [] rfl
  exact ⟨h1, by rw [h2, h1]⟩

/-- C10: whenever the search returns a pair `(addr, v)`, the instruction at
`addr` has the target register as its first operand and a destructive
mnemonic; and whenever the value is known (`some`), the mnemonic at `addr`
is `mov` and its second operand is an immediate, a memory-immediate or a
RIP-relative operand. -/
theorem find_definition_found_invariant (vw : Workspace)
    (va reg fuel addr : Nat) (v : Option Nat)
    (h : find_definition vw va reg fuel = SearchResult.found addr v) :
    (∃ rest, (vw.parseOpcode addr).opers = Oper.reg reg :: rest ∧
        (vw.parseOpcode addr).mnem ∈ DESTRUCTIVE_MNEMONICS)
    ∧ (∀ n, v = some n → (vw.parseOpcode addr).mnem = "mov" ∧
        ∃ opnd0 opnd1 rest,
          (vw.parseOpcode addr).opers = opnd0 :: opnd1 :: rest ∧
          ((∃ m, opnd1 = Oper.imm m) ∨ (∃ m, opnd1 = Oper.immMem m) ∨
            (∃ d, opnd1 = Oper.ripRel d))) := by
  obtain ⟨hd, hext⟩ := loop_found_inv vw reg fuel _ ∅ addr v h
  constructor
  · exact (isDestructiveWriteTo_iff (vw.parseOpcode addr) reg).mp hd
  · rintro n rfl
    obtain ⟨hm, o0, o1, rest, hop, hshape⟩ :=
      extractConstant_some addr (vw.parseOpcode addr) n hext
    refine ⟨hm, o0, o1, rest, hop, ?_⟩
    rcases hshape with rfl | rfl | ⟨d, rfl, _⟩
    · exact Or.inl ⟨n, rfl⟩
    · exact Or.inr (Or.inl ⟨n, rfl⟩)
    · exact Or.inr (Or.inr ⟨d, rfl⟩)

/-- C10 witness: the successful resolution in `vwMovImm` satisfies the
invariant. -/
theorem find_definition_found_invariant_witness :
    ∃ rest, (vwMovImm.parseOpcode 90).opers = Oper.reg 8 :: rest ∧
      (vwMovImm.parseOpcode 90).mnem ∈ DESTRUCTIVE_MNEMONICS :=
  (find_definition_found_invariant vwMovImm 100 8 5 90 (some 4660)
    (by decide)).1
